import Mathlib

/-!
# GermiTrack v1.4 — germination-parameter engine, shallow embedding

This file embeds the numerical core of `GermiTrack_1.4.py` (class
`GermiTrackAnalyzer`: `calculate_all_germination_parameters`, `_combination`,
`_calculate_tx`) and proves properties of it.

Modelling conventions:
* Observation days are rationals (`List ℚ`); daily germination counts are
  integers (`List ℤ`), matching the integer-count data model (pandas integer
  dtype columns).  Exact rational arithmetic stands in for float arithmetic.
* numpy float operations that yield NaN outside their domain (`np.sqrt` on a
  negative, `np.arcsin` outside `[-1, 1]`) are embedded as `Option ℝ` valued
  functions returning `none` exactly where numpy yields NaN.
* Python `round(x, d)` is embedded as exact decimal rounding with
  round-half-to-even tie-breaking (Python's documented behaviour); binary
  float representation effects are abstracted away, and no theorem below
  depends on tie-breaking.
* The per-replicate pipeline (source lines 99–136) is split into a computable
  record `GermRecord` holding the rational-valued fields and a record
  `GermRecordReal` holding the fields whose values go through transcendental
  float functions (sqrt, log2, arcsin).
-/

namespace GermiTrack

/-- Round-half-to-even to the nearest integer, the documented behaviour of
Python's built-in `round` at decimal level. -/
def rne (x : ℚ) : ℤ :=
  let f := ⌊x⌋
  if x - f < 1/2 then f
  else if 1/2 < x - f then f + 1
  else if f % 2 = 0 then f else f + 1

/-- `round(x, d)` of the source, at exact decimal level. -/
def roundTo (d : ℕ) (x : ℚ) : ℚ := (rne (x * 10 ^ d) : ℚ) / 10 ^ d

/-- `np.cumsum` on a list: running sums, same length as the input. -/
def cumsum (l : List ℚ) : List ℚ := (l.scanl (· + ·) 0).tail

/-- The scan loop of `_calculate_tx` (source lines 152–162): walk the
`(day, cumulative)` pairs; at the first pair whose cumulative count reaches
`target`, return that day if it is the first row, otherwise interpolate
linearly against the previous pair carried in `prev` (returning the previous
day unchanged on a flat segment).  `none` means the loop fell through. -/
def txScan (target : ℚ) : List (ℚ × ℚ) → Option (ℚ × ℚ) → Option ℚ
  | [], _ => none
  | (x2, y2) :: rest, prev =>
    if target ≤ y2 then
      match prev with
      | none => some x2
      | some (x1, y1) =>
        if y2 ≠ y1 then some (x1 + (target - y1) * (x2 - x1) / (y2 - y1))
        else some x1
    else txScan target rest (some (x2, y2))

/-- `GermiTrackAnalyzer._calculate_tx` (source lines 147–163).  `days[-1]` of
the fall-through branch is modelled by `getLast?.getD 0`; the `0` default is
unreachable for the rectangular nonempty tables the caller passes. -/
def calculate_tx (days rep : List ℚ) (total_germinated percentage : ℚ) : ℚ :=
  if total_germinated = 0 then 0
  else
    match txScan (total_germinated * percentage) (days.zip (cumsum rep)) none with
    | some t => t
    | none => (days.getLast?).getD 0

/-- `total_germinated = np.sum(rep_data)` (source line 102). -/
def totalGerminated (counts : List ℤ) : ℤ := counts.sum

/-- `germinability = (total_germinated / self.total_seeds) * 100`
(source line 104). -/
def germinability (seeds : ℤ) (counts : List ℤ) : ℚ :=
  ((counts.sum : ℚ) / (seeds : ℚ)) * 100

/-- `mgt = np.sum(days * rep_data) / total_germinated` (source line 105). -/
def mgt (days : List ℚ) (counts : List ℤ) : ℚ :=
  (List.zipWith (fun (d : ℚ) (c : ℤ) => d * (c : ℚ)) days counts).sum / (counts.sum : ℚ)

/-- `mgr = 1 / mgt if mgt > 0 else 0` (source line 106). -/
def mgr (days : List ℚ) (counts : List ℤ) : ℚ :=
  if 0 < mgt days counts then 1 / mgt days counts else 0

/-- `variance = np.sum(rep_data * (days - mgt) ** 2) / (total_germinated - 1)
if total_germinated > 1 else 0` (source line 107). -/
def variance (days : List ℚ) (counts : List ℤ) : ℚ :=
  if 1 < counts.sum then
    (List.zipWith (fun (d : ℚ) (c : ℤ) => (c : ℚ) * (d - mgt days counts) ^ 2) days counts).sum
      / ((counts.sum : ℚ) - 1)
  else 0

/-- `speed_maguire = np.sum(rep_data / days) if np.all(days > 0) else 0`
(source line 110). -/
def speed_maguire (days : List ℚ) (counts : List ℤ) : ℚ :=
  if ∀ d ∈ days, 0 < d then (List.zipWith (fun (d : ℚ) (c : ℤ) => (c : ℚ) / d) days counts).sum
  else 0

/-- `frequencies = rep_data / total_germinated; frequencies =
frequencies[frequencies > 0]` (source lines 111–112). -/
def frequencies (counts : List ℤ) : List ℚ :=
  (counts.map (fun c => (c : ℚ) / (counts.sum : ℚ))).filter (fun f => 0 < f)

/-- `GermiTrackAnalyzer._combination` (source lines 139–145): zero when
`n < r` or either argument is negative, else `n! / (r! (n-r)!)` as a float.
The `try/except` of the source only catches conditions (non-integer or
astronomically large arguments) that cannot arise for integer counts. -/
def combination (n r : ℤ) : ℚ :=
  if n < r ∨ n < 0 ∨ r < 0 then 0
  else (Nat.factorial n.toNat : ℚ)
    / ((Nat.factorial r.toNat : ℚ) * (Nat.factorial (n - r).toNat : ℚ))

/-- Synchrony index (source lines 114–116): `numerator = sum(C(ni, 2) for ni
in rep_data if ni >= 2)`, `denominator = C(total_germinated, 2)`, quotient
when the denominator is positive, else 0. -/
def synchrony (counts : List ℤ) : ℚ :=
  let numerator := ((counts.filter (fun ni => 2 ≤ ni)).map (fun ni => combination ni 2)).sum
  let denominator := combination counts.sum 2
  if 0 < denominator then numerator / denominator else 0

/-- The rational-valued fields of the per-replicate output row (source lines
121–134); field names follow the dictionary keys of the source. -/
structure GermRecord where
  replicate : ℕ
  total_Seeds : ℤ
  germinated_Seeds : ℤ
  g_Germinability_Pct : ℚ
  mt_Mean_Germination_Time : ℚ
  mr_Mean_Germination_Rate : ℚ
  z_Synchrony_Index : ℚ
  variance_Germination_Time : ℚ
  speed_Maguire_Index : ℚ
  t50_Time_50 : ℚ
  deriving DecidableEq

/-- One iteration of the replicate loop (source lines 99–136), rational
fields: the `total_germinated > 0` branch computes the statistics, the else
branch zeroes them (source lines 118–120); every field is rounded exactly as
in the output dictionary.  `i` is the zero-based column position, reported as
replicate `i + 1`. -/
def computeRecord (seeds : ℤ) (days : List ℚ) (counts : List ℤ) (i : ℕ) : GermRecord :=
  if 0 < counts.sum then
    { replicate := i + 1
      total_Seeds := seeds
      germinated_Seeds := counts.sum
      g_Germinability_Pct := roundTo 2 (germinability seeds counts)
      mt_Mean_Germination_Time := roundTo 2 (mgt days counts)
      mr_Mean_Germination_Rate := roundTo 4 (mgr days counts)
      z_Synchrony_Index := roundTo 3 (synchrony counts)
      variance_Germination_Time := roundTo 2 (variance days counts)
      speed_Maguire_Index := roundTo 2 (speed_maguire days counts)
      t50_Time_50 :=
        roundTo 2 (calculate_tx days (counts.map (fun c => (c : ℚ))) (counts.sum : ℚ) (1/2)) }
  else
    { replicate := i + 1
      total_Seeds := seeds
      germinated_Seeds := counts.sum
      g_Germinability_Pct := 0
      mt_Mean_Germination_Time := 0
      mr_Mean_Germination_Rate := 0
      z_Synchrony_Index := 0
      variance_Germination_Time := 0
      speed_Maguire_Index := 0
      t50_Time_50 := 0 }

/-- A resolved observation table: the day column plus the replicate columns,
after the loader's column sniffing (source lines 89–98) has run. -/
structure ObservationTable where
  days : List ℚ
  reps : List (List ℤ)
  deriving DecidableEq

/-- The replicate loop of `calculate_all_germination_parameters` (source line
99: `for i, rep_col in enumerate(rep_columns)`); note the source iterates
every resolved replicate column — it has no `[:6]` cap (the cap appears only
in the plotting and curve-export functions). -/
def computeAll (seeds : ℤ) (t : ObservationTable) : List GermRecord :=
  t.reps.mapIdx (fun i col => computeRecord seeds t.days col i)

/-- `calculate_all_germination_parameters` seen through an error monad: the
source body (lines 87–137) contains no `raise` statement and no validation of
counts or table shape, so the computation always succeeds. -/
def computeAllE (seeds : ℤ) (t : ObservationTable) : Except String (List GermRecord) :=
  Except.ok (computeAll seeds t)

/-- Round-half-to-even on a real (the `round(x, d)` of the source applied to a
float value computed by a transcendental function). -/
noncomputable def rneR (x : ℝ) : ℤ :=
  let f := ⌊x⌋
  if x - f < 1/2 then f
  else if 1/2 < x - f then f + 1
  else if f % 2 = 0 then f else f + 1

/-- Decimal rounding on reals. -/
noncomputable def roundToR (d : ℕ) (x : ℝ) : ℝ := (rneR (x * 10 ^ d) : ℝ) / 10 ^ d

/-- `np.sqrt` on a float: NaN (modelled `none`) for a negative argument. -/
noncomputable def npSqrt (x : ℚ) : Option ℝ :=
  if 0 ≤ x then some (Real.sqrt (x : ℝ)) else none

/-- `np.arcsin` on a float: NaN (modelled `none`) outside `[-1, 1]`. -/
noncomputable def npArcsin (x : ℝ) : Option ℝ :=
  if -1 ≤ x ∧ x ≤ 1 then some (Real.arcsin x) else none

/-- `std_dev = np.sqrt(variance)` (source line 108). -/
noncomputable def std_dev (days : List ℚ) (counts : List ℤ) : Option ℝ :=
  npSqrt (variance days counts)

/-- `cv = (std_dev / mgt * 100) if mgt > 0 else 0` (source line 109). -/
noncomputable def cvStat (days : List ℚ) (counts : List ℤ) : Option ℝ :=
  if 0 < mgt days counts then
    (std_dev days counts).map (fun s => s / (mgt days counts : ℝ) * 100)
  else some 0

/-- `uncertainty = -np.sum(frequencies * np.log2(frequencies)) if
len(frequencies) > 0 else 0` (source line 113); the frequency list is already
filtered to positive entries, on which `np.log2` is finite, and an empty sum
is 0, so the `len` guard is implied by the empty sum. -/
noncomputable def uncertainty (counts : List ℤ) : ℝ :=
  -((frequencies counts).map (fun f => (f : ℝ) * Real.logb 2 (f : ℝ))).sum

/-- `np.arcsin(np.sqrt(germinability / 100)) * (180 / np.pi)` (source line
135), NaN propagating through the two partial float functions. -/
noncomputable def arcsinTrans (g : ℚ) : Option ℝ :=
  (npSqrt (g / 100)).bind (fun s => (npArcsin s).map (fun a => a * (180 / Real.pi)))

/-- The fields of the per-replicate output row whose values pass through
transcendental float functions (source lines 108–109, 113, 135). -/
structure GermRecordReal where
  cvt_Coefficient_Variation_Pct : Option ℝ
  u_Uncertainty_Index : Option ℝ
  standard_Deviation : Option ℝ
  arcSin_Transformation : Option ℝ

/-- The transcendental-valued fields of one replicate row: computed in the
`total_germinated > 0` branch, zeroed otherwise (source lines 118–120), with
the arcsine transform additionally guarded by `germinability > 0` in the
output dictionary itself (source line 135); rounded as in the dictionary. -/
noncomputable def computeRecordReal (seeds : ℤ) (days : List ℚ) (counts : List ℤ) :
    GermRecordReal :=
  if 0 < counts.sum then
    { cvt_Coefficient_Variation_Pct := (cvStat days counts).map (roundToR 2)
      u_Uncertainty_Index := some (roundToR 3 (uncertainty counts))
      standard_Deviation := (std_dev days counts).map (roundToR 2)
      arcSin_Transformation :=
        if 0 < germinability seeds counts then
          (arcsinTrans (germinability seeds counts)).map (roundToR 2)
        else some 0 }
  else
    { cvt_Coefficient_Variation_Pct := some 0
      u_Uncertainty_Index := some 0
      standard_Deviation := some 0
      arcSin_Transformation := some 0 }

/-! ## Spec-side predicates -/

/-- Formalisation of the spec's words (§4.1 step 2, §8): every derived
statistic of a replicate's output row is 0. -/
def specAllZero (r : GermRecord) (rr : GermRecordReal) : Prop :=
  r.g_Germinability_Pct = 0 ∧ r.mt_Mean_Germination_Time = 0 ∧
  r.mr_Mean_Germination_Rate = 0 ∧ r.z_Synchrony_Index = 0 ∧
  r.variance_Germination_Time = 0 ∧ r.speed_Maguire_Index = 0 ∧
  r.t50_Time_50 = 0 ∧
  rr.cvt_Coefficient_Variation_Pct = some 0 ∧ rr.u_Uncertainty_Index = some 0 ∧
  rr.standard_Deviation = some 0 ∧ rr.arcSin_Transformation = some 0

/-- Formalisation of the spec's words (§4.1 error conditions, §7): an input is
structurally invalid when a replicate column contains a negative count or the
table has no day row. -/
def specStructurallyInvalid (t : ObservationTable) : Prop :=
  (∃ col ∈ t.reps, ∃ c ∈ col, c < 0) ∨ t.days = []

/-- Formalisation of the spec's words (§7): no transcendental-valued field of
a replicate's output row is NaN (modelled: none is `none`). -/
def specAllFinite (rr : GermRecordReal) : Prop :=
  rr.cvt_Coefficient_Variation_Pct.isSome = true ∧
  rr.u_Uncertainty_Index.isSome = true ∧
  rr.standard_Deviation.isSome = true ∧
  rr.arcSin_Transformation.isSome = true

/-! ## Helper lemmas -/

lemma roundTo_zero (d : ℕ) : roundTo d 0 = 0 := by
  norm_num [roundTo, rne]

lemma computeAll_length (seeds : ℤ) (t : ObservationTable) :
    (computeAll seeds t).length = t.reps.length := by
  simp [computeAll]

lemma computeAll_get? (seeds : ℤ) (t : ObservationTable) (i : ℕ) (col : List ℤ)
    (h : t.reps.get? i = some col) :
    (computeAll seeds t).get? i = some (computeRecord seeds t.days col i) := by
  simp [computeAll, List.get?_eq_getElem?, List.getElem?_mapIdx] at *
  cases hx : t.reps[i]? with
  | none => rw [hx] at h; simp at h
  | some c => rw [hx] at h; simp at h; subst h; exact ⟨c, rfl, rfl⟩

lemma computeRecord_germinated (seeds : ℤ) (days : List ℚ) (counts : List ℤ) (i : ℕ) :
    (computeRecord seeds days counts i).germinated_Seeds = counts.sum := by
  unfold computeRecord; split <;> rfl

/-! ## Claims -/

/-- C1: for every replicate whose daily counts sum to zero, the engine's
output row has every derived statistic equal to 0 (an actual zero rational,
respectively `some 0` for the float-partial fields — never NaN), and no error
path exists. -/
theorem C1_degenerate_all_zero (seeds : ℤ) (days : List ℚ) (counts : List ℤ) (i : ℕ)
    (h : counts.sum = 0) :
    specAllZero (computeRecord seeds days counts i) (computeRecordReal seeds days counts) ∧
    (computeRecord seeds days counts i).germinated_Seeds = 0 := by
  constructor
  · simp [specAllZero, computeRecord, computeRecordReal, h]
  · simp [computeRecord_germinated, h]

/-- Witness for C1 at a concrete degenerate replicate. -/
theorem C1_witness :
    specAllZero (computeRecord 25 [1, 2] [0, 0] 0) (computeRecordReal 25 [1, 2] [0, 0]) ∧
    (computeRecord 25 [1, 2] [0, 0] 0).germinated_Seeds = 0 :=
  C1_degenerate_all_zero 25 [1, 2] [0, 0] 0 (by decide)

/-- C2 counterexample: both structurally invalid inputs of the claim — a
replicate column containing a negative count, and an empty table with no day
row — are processed without any error: the engine body has no raise path, so
the claimed `DataShapeError` is never signalled. -/
theorem C2_counterexample :
    specStructurallyInvalid ⟨[1, 2], [[-1, 5]]⟩ ∧
    (computeAllE 25 ⟨[1, 2], [[-1, 5]]⟩).isOk = true ∧
    specStructurallyInvalid ⟨[], [[], []]⟩ ∧
    (computeAllE 25 ⟨[], [[], []]⟩).isOk = true :=
  ⟨by unfold specStructurallyInvalid; decide, rfl,
   by unfold specStructurallyInvalid; decide, rfl⟩

/-- C2 amended: the engine never raises on any input — negative counts are
neither rejected nor coerced (each record's germinated-seeds total is the raw
column sum, negative values included), and an empty table yields an all-zero
record per replicate column rather than an error. -/
theorem C2_never_raises (seeds : ℤ) (t : ObservationTable) :
    (computeAllE seeds t).isOk = true ∧
    ∀ i col, t.reps.get? i = some col →
      ((computeAll seeds t).get? i).map (fun r => r.germinated_Seeds) = some col.sum := by
  refine ⟨rfl, fun i col h => ?_⟩
  rw [computeAll_get? seeds t i col h]
  simp [computeRecord_germinated]

/-- Witness for C2 at a concrete table with a negative count. -/
theorem C2_witness :
    (computeAllE 25 ⟨[1, 2], [[-1, 5]]⟩).isOk = true ∧
    ((computeAll 25 ⟨[1, 2], [[-1, 5]]⟩).get? 0).map (fun r => r.germinated_Seeds)
      = some 4 := by
  refine ⟨(C2_never_raises 25 ⟨[1, 2], [[-1, 5]]⟩).1, ?_⟩
  rw [(C2_never_raises 25 ⟨[1, 2], [[-1, 5]]⟩).2 0 [-1, 5] (by decide)]
  decide

/-- One step of binomial-coefficient superadditivity: a Pascal identity for
column 2. -/
lemma choose_two_succ (m : ℕ) : (m + 1).choose 2 = m.choose 2 + m := by
  rw [Nat.choose_succ_succ m 1, Nat.choose_one_right]
  norm_num [Nat.add_comm]

/-- Pairs within two groups are at most pairs in the merged group. -/
lemma choose_two_add_le (a b : ℕ) : a.choose 2 + b.choose 2 ≤ (a + b).choose 2 := by
  induction b with
  | zero => simp
  | succ b ih =>
    have h1 := choose_two_succ b
    have h2 : (a + (b + 1)).choose 2 = (a + b).choose 2 + (a + b) := by
      have ha : a + (b + 1) = (a + b) + 1 := by omega
      rw [ha, choose_two_succ]
    omega

/-- Within-day pair counts never exceed the whole-replicate pair count. -/
lemma sum_choose_two_le (l : List ℕ) :
    (l.map (fun n => n.choose 2)).sum ≤ l.sum.choose 2 := by
  induction l with
  | nil => simp
  | cons a t ih =>
    simp only [List.map_cons, List.sum_cons]
    calc a.choose 2 + (t.map (fun n => n.choose 2)).sum
        ≤ a.choose 2 + t.sum.choose 2 := by omega
      _ ≤ (a + t.sum).choose 2 := choose_two_add_le a t.sum

/-- The source's factorial-quotient `_combination(n, 2)` agrees with the
binomial coefficient for nonnegative integer arguments. -/
lemma combination_eq_choose (n : ℤ) (h : 0 ≤ n) :
    combination n 2 = (n.toNat.choose 2 : ℚ) := by
  by_cases h2 : n < 2
  · rw [combination, if_pos (Or.inl h2)]
    rw [Nat.choose_eq_zero_of_lt (by omega)]
    simp
  · rw [combination, if_neg (by omega)]
    have hk : 2 ≤ n.toNat := by omega
    have hfac := Nat.choose_mul_factorial_mul_factorial hk
    have hnn : (n - 2).toNat = n.toNat - 2 := by omega
    have h2t : ((2 : ℤ)).toNat = 2 := rfl
    rw [hnn, h2t, div_eq_iff (by positivity)]
    push_cast [← hfac]
    ring

lemma sum_toNat_eq (l : List ℤ) (h : ∀ c ∈ l, 0 ≤ c) :
    (l.map Int.toNat).sum = l.sum.toNat := by
  induction l with
  | nil => simp
  | cons a t ih =>
    have ha := h a (List.mem_cons_self a t)
    have ht : 0 ≤ t.sum := List.sum_nonneg (fun c hc => h c (List.mem_cons_of_mem a hc))
    have := ih (fun c hc => h c (List.mem_cons_of_mem a hc))
    simp only [List.map_cons, List.sum_cons, this]
    omega

/-- For nonnegative counts the synchrony numerator — which filters days with
at least two germinations — equals the unfiltered sum of per-day pair
counts (days with fewer than two germinations contribute zero pairs). -/
lemma synchrony_numerator (counts : List ℤ) (hc : ∀ c ∈ counts, 0 ≤ c) :
    ((counts.filter (fun ni => 2 ≤ ni)).map (fun ni => combination ni 2)).sum
      = ((((counts.map Int.toNat).map (fun n => n.choose 2)).sum : ℕ) : ℚ) := by
  induction counts with
  | nil => simp
  | cons a t ih =>
    have ha := hc a (List.mem_cons_self a t)
    have iht := ih (fun c hcm => hc c (List.mem_cons_of_mem a hcm))
    by_cases h2 : (2 : ℤ) ≤ a
    · rw [List.filter_cons_of_pos (by simpa using h2)]
      simp only [List.map_cons, List.sum_cons, iht, combination_eq_choose a ha]
      push_cast
      ring
    · rw [List.filter_cons_of_neg (by simpa using h2)]
      simp only [List.map_cons, List.sum_cons, iht]
      rw [Nat.choose_eq_zero_of_lt (by omega)]
      simp

lemma filter_two_le_replicate_zero (n : ℕ) :
    (List.replicate n (0 : ℤ)).filter (fun ni => 2 ≤ ni) = [] := by
  induction n with
  | zero => rfl
  | succ n ih =>
    rw [List.replicate_succ, List.filter_cons_of_neg (by decide)]
    exact ih

lemma combination_pos (n : ℤ) (h : 2 ≤ n) : 0 < combination n 2 := by
  rw [combination_eq_choose n (by omega)]
  exact_mod_cast Nat.choose_pos (by omega)

/-- C3: for nonnegative counts, the synchrony index lies in [0, 1] whenever
at least two seeds germinated; it is exactly 1 when all germination falls on
a single day (count equal to the total, zeros elsewhere); and it is 0 when
fewer than two seeds germinated or when no day has more than one
germination. -/
theorem C3_synchrony_props (counts : List ℤ) (hc : ∀ c ∈ counts, 0 ≤ c) :
    (2 ≤ counts.sum → 0 ≤ synchrony counts ∧ synchrony counts ≤ 1) ∧
    (∀ (a b : ℕ) (tt : ℤ), 2 ≤ tt →
      counts = List.replicate a 0 ++ tt :: List.replicate b 0 →
      synchrony counts = 1) ∧
    ((counts.sum < 2 ∨ ∀ c ∈ counts, c ≤ 1) → synchrony counts = 0) := by
  refine ⟨fun h2 => ?_, fun a b tt htt hshape => ?_, fun h0 => ?_⟩
  · have hden : 0 < combination counts.sum 2 := combination_pos _ h2
    simp only [synchrony, if_pos hden]
    constructor
    · rw [synchrony_numerator counts hc]
      exact div_nonneg (Nat.cast_nonneg _) hden.le
    · rw [div_le_one hden, synchrony_numerator counts hc,
          combination_eq_choose _ (by omega)]
      have hle := sum_choose_two_le (counts.map Int.toNat)
      rw [sum_toNat_eq counts hc] at hle
      exact_mod_cast hle
  · subst hshape
    have hsum : (List.replicate a (0 : ℤ) ++ tt :: List.replicate b 0).sum = tt := by
      simp [List.sum_append, List.sum_replicate]
    simp only [synchrony, hsum]
    rw [List.filter_append, filter_two_le_replicate_zero,
        List.filter_cons_of_pos (by simpa using htt), filter_two_le_replicate_zero]
    simp only [List.nil_append, List.map_cons, List.map_nil, List.sum_cons,
      List.sum_nil, add_zero]
    rw [if_pos (combination_pos tt htt)]
    exact div_self (ne_of_gt (combination_pos tt htt))
  · rcases h0 with hlt | hle
    · have hden : combination counts.sum 2 = 0 := by
        rw [combination, if_pos (Or.inl hlt)]
      simp only [synchrony, hden]
      norm_num
    · have hfil : counts.filter (fun ni => 2 ≤ ni) = [] := by
        rw [List.filter_eq_nil_iff]
        intro c hcm
        have := hle c hcm
        simp
        omega
      simp only [synchrony, hfil, List.map_nil, List.sum_nil]
      split <;> simp

/-- Witness for C3: bounds, the single-day case and the all-singletons case
at concrete replicates. -/
theorem C3_witness :
    (0 ≤ synchrony [0, 3, 3] ∧ synchrony [0, 3, 3] ≤ 1) ∧
    synchrony [0, 10, 0] = 1 ∧
    synchrony [1, 1, 0] = 0 :=
  ⟨(C3_synchrony_props [0, 3, 3] (by decide)).1 (by decide),
   (C3_synchrony_props [0, 10, 0] (by decide)).2.1 1 1 10 (by decide) rfl,
   (C3_synchrony_props [1, 1, 0] (by decide)).2.2 (Or.inr (by decide))⟩

/-- C4: the round-trip scenario days = [1,2,3,4,5], counts = [0,5,10,5,5],
totalSeeds = 25 yields 25 germinated seeds, 100% germinability, the cumulative
sums [0,5,15,20,25], and a T50 of 2.75 obtained by interpolating at target
12.5 between day 2 (cumulative 5) and day 3 (cumulative 15). -/
theorem C4_round_trip_scenario :
    cumsum [0, 5, 10, 5, 5] = [0, 5, 15, 20, 25] ∧
    (computeRecord 25 [1, 2, 3, 4, 5] [0, 5, 10, 5, 5] 0).germinated_Seeds = 25 ∧
    (computeRecord 25 [1, 2, 3, 4, 5] [0, 5, 10, 5, 5] 0).g_Germinability_Pct = 100 ∧
    (computeRecord 25 [1, 2, 3, 4, 5] [0, 5, 10, 5, 5] 0).t50_Time_50
      = 2 + (25 / 2 - 5) * (3 - 2) / (15 - 5) := by
  refine ⟨by norm_num [cumsum, List.scanl], by decide, ?_, ?_⟩
  · norm_num [computeRecord, germinability, roundTo, rne]
  · norm_num [computeRecord, calculate_tx, cumsum, txScan, List.scanl, roundTo, rne]

/-- C6: the Maguire speed index is the sum of dailyCount / day exactly when
every day value is strictly positive and 0 as soon as any day is ≤ 0 (the
all-or-nothing guard of source line 110), and in the concrete day-0 scenario
(days [0,1,2], counts [2,3,0], 25 seeds) the record's speed index is 0 while
MGT is still 0.6 — computed normally with day 0 in the weighted sum — and
germinability is 20%. -/
theorem C6_speed_guard (days : List ℚ) (counts : List ℤ) :
    ((∀ d ∈ days, 0 < d) →
      speed_maguire days counts
        = (List.zipWith (fun (d : ℚ) (c : ℤ) => (c : ℚ) / d) days counts).sum) ∧
    ((∃ d ∈ days, d ≤ 0) → speed_maguire days counts = 0) ∧
    ((computeRecord 25 [0, 1, 2] [2, 3, 0] 0).speed_Maguire_Index = 0 ∧
     (computeRecord 25 [0, 1, 2] [2, 3, 0] 0).mt_Mean_Germination_Time = 3 / 5 ∧
     (computeRecord 25 [0, 1, 2] [2, 3, 0] 0).g_Germinability_Pct = 20) := by
  refine ⟨fun h => by unfold speed_maguire; rw [if_pos h], ?_, ?_, ?_, ?_⟩
  · rintro ⟨d, hd, hd0⟩
    exact if_neg (fun hall => absurd (hall d hd) (not_lt.mpr hd0))
  · norm_num [computeRecord, speed_maguire, roundTo, rne]
  · norm_num [computeRecord, mgt, roundTo, rne]
  · norm_num [computeRecord, germinability, roundTo, rne]

/-- Witness for C6: both guard directions discharged at concrete inputs. -/
theorem C6_witness :
    speed_maguire [1, 2] [1, 1]
      = (List.zipWith (fun (d : ℚ) (c : ℤ) => (c : ℚ) / d) [1, 2] [1, 1]).sum ∧
    speed_maguire [0, 2] [1, 1] = 0 :=
  ⟨(C6_speed_guard [1, 2] [1, 1]).1 (by decide),
   (C6_speed_guard [0, 2] [1, 1]).2.1 ⟨0, by decide, by decide⟩⟩

/-- C8 counterexample: at totalSeeds = 3, days = [1], counts = [1] the
germinability field of the record is `round(100/3, 2) = 33.33`, which is not
exactly `100 · germinatedSeeds / totalSeeds = 100/3`: the claimed exact
equality fails because every output field is rounded. -/
theorem C8_counterexample :
    (computeRecord 3 [1] [1] 0).g_Germinability_Pct
      ≠ 100 * ((computeRecord 3 [1] [1] 0).germinated_Seeds : ℚ)
          / ((computeRecord 3 [1] [1] 0).total_Seeds : ℚ) := by
  norm_num [computeRecord, germinability, roundTo, rne]

/-- C8 amended: the germinability field of every record equals
`100 · germinatedSeeds / totalSeeds` rounded to two decimals, and the
internal (pre-rounding) germinability value is exactly
`100 · germinatedSeeds / totalSeeds`. -/
theorem C8_germinability_exact_up_to_rounding (seeds : ℤ) (days : List ℚ)
    (counts : List ℤ) (i : ℕ) (h : 0 ≤ counts.sum) :
    (computeRecord seeds days counts i).g_Germinability_Pct
      = roundTo 2 (100 * (counts.sum : ℚ) / (seeds : ℚ)) ∧
    germinability seeds counts = 100 * (counts.sum : ℚ) / (seeds : ℚ) := by
  have hg : germinability seeds counts = 100 * (counts.sum : ℚ) / (seeds : ℚ) := by
    unfold germinability; ring
  refine ⟨?_, hg⟩
  rcases lt_or_eq_of_le h with hpos | hzero
  · rw [computeRecord, if_pos hpos, hg]
  · rw [computeRecord, if_neg (by omega)]
    have h0 : (100 : ℚ) * ((counts.sum : ℤ) : ℚ) / (seeds : ℚ) = 0 := by
      rw [← hzero]; norm_num
    rw [h0, roundTo_zero]

/-- Witness for C8 amended at a concrete replicate. -/
theorem C8_witness :
    (computeRecord 25 [1] [5] 0).g_Germinability_Pct
      = roundTo 2 (100 * (([(5 : ℤ)].sum : ℤ) : ℚ) / ((25 : ℤ) : ℚ)) ∧
    germinability 25 [5] = 100 * (([(5 : ℤ)].sum : ℤ) : ℚ) / ((25 : ℤ) : ℚ) :=
  C8_germinability_exact_up_to_rounding 25 [1] [5] 0 (by decide)

/-- C9 counterexample: a table with 7 replicate columns produces 7 records —
the engine applies no 6-replicate cap, so the surplus column is not
ignored. -/
theorem C9_counterexample :
    6 < (⟨[1], [[1], [1], [1], [1], [1], [1], [1]]⟩ : ObservationTable).reps.length ∧
    (computeAll 25 ⟨[1], [[1], [1], [1], [1], [1], [1], [1]]⟩).length = 7 :=
  ⟨by decide, by simp [computeAll]⟩

/-- C9 amended: the engine iterates every replicate column in column order
with no cap — the i-th record is always the analysis of the i-th column (the
`[:6]` cap of the source belongs to the plotting and curve-export functions
only). -/
theorem C9_no_replicate_cap (seeds : ℤ) (t : ObservationTable) :
    (computeAll seeds t).length = t.reps.length ∧
    ∀ i col, t.reps.get? i = some col →
      (computeAll seeds t).get? i = some (computeRecord seeds t.days col i) :=
  ⟨computeAll_length seeds t, fun i col h => computeAll_get? seeds t i col h⟩

/-- Witness for C9 amended: the seventh column of a 7-column table yields the
seventh record. -/
theorem C9_witness :
    (computeAll 25 ⟨[1], [[2], [3], [4], [5], [6], [7], [8]]⟩).length = 7 ∧
    (computeAll 25 ⟨[1], [[2], [3], [4], [5], [6], [7], [8]]⟩).get? 6
      = some (computeRecord 25 [1] [8] 6) := by
  refine ⟨?_, (C9_no_replicate_cap 25 ⟨[1], [[2], [3], [4], [5], [6], [7], [8]]⟩).2 6 [8]
    (by decide)⟩
  rw [(C9_no_replicate_cap 25 ⟨[1], [[2], [3], [4], [5], [6], [7], [8]]⟩).1]
  rfl


lemma pairwise_fst_zip {l1 l2 : List ℚ} (h : List.Pairwise (· ≤ ·) l1) :
    List.Pairwise (fun a b : ℚ × ℚ => a.1 ≤ b.1) (l1.zip l2) := by
  induction l1 generalizing l2 with
  | nil => simp
  | cons a t ih =>
    cases l2 with
    | nil => simp
    | cons b s =>
      rw [List.zip_cons_cons]
      rcases List.pairwise_cons.mp h with ⟨ha, ht⟩
      refine List.Pairwise.cons ?_ (ih ht)
      rintro ⟨qx, qy⟩ hq
      exact ha qx (List.of_mem_zip hq).1

lemma sorted_head_le {l : List ℚ} (h : List.Pairwise (· ≤ ·) l) (hne : l ≠ []) :
    ∀ a ∈ l, l.head hne ≤ a := by
  cases l with
  | nil => simp at hne
  | cons x t =>
    intro a ha
    rcases List.mem_cons.mp ha with rfl | hat
    · exact le_refl _
    · exact (List.pairwise_cons.mp h).1 a hat

lemma sorted_le_getLast {l : List ℚ} (h : List.Pairwise (· ≤ ·) l) (hne : l ≠ []) :
    ∀ a ∈ l, a ≤ l.getLast hne := by
  induction l with
  | nil => simp at hne
  | cons x t ih =>
    intro a ha
    cases t with
    | nil =>
      rcases List.mem_cons.mp ha with rfl | hat
      · exact le_refl _
      · simp at hat
    | cons y s =>
      rw [List.getLast_cons (by simp)]
      rcases List.mem_cons.mp ha with rfl | hat
      · exact (List.pairwise_cons.mp h).1 _ (List.getLast_mem (by simp))
      · exact ih (List.pairwise_cons.mp h).2 (by simp) a hat


lemma txScan_lower (target lo : ℚ) (L : List (ℚ × ℚ)) :
    ∀ (prev : Option (ℚ × ℚ)) (tv : ℚ),
      List.Pairwise (fun a b : ℚ × ℚ => a.1 ≤ b.1) L →
      (∀ p ∈ prev, (∀ q ∈ L, p.1 ≤ q.1) ∧ p.2 < target ∧ lo ≤ p.1) →
      (∀ q ∈ L, lo ≤ q.1) →
      txScan target L prev = some tv → lo ≤ tv := by
  induction L with
  | nil => intro prev tv _ _ _ h; simp [txScan] at h
  | cons hd rest ih =>
    obtain ⟨x2, y2⟩ := hd
    intro prev tv hpw hprev hlo hscan
    simp only [txScan] at hscan
    by_cases hy : target ≤ y2
    · rw [if_pos hy] at hscan
      cases prev with
      | none =>
        have hscan' : some x2 = some tv := hscan
        rw [Option.some.injEq] at hscan'
        exact hscan' ▸ hlo (x2, y2) (List.mem_cons_self _ _)
      | some p =>
        obtain ⟨x1, y1⟩ := p
        obtain ⟨hpL, hy1, hlo1⟩ := hprev (x1, y1) rfl
        have hx12 : x1 ≤ x2 := hpL (x2, y2) (List.mem_cons_self _ _)
        have hne : y2 ≠ y1 := ne_of_gt (lt_of_lt_of_le hy1 hy)
        have hscan' : (if y2 ≠ y1 then
            some (x1 + (target - y1) * (x2 - x1) / (y2 - y1))
          else some x1) = some tv := hscan
        rw [if_pos hne, Option.some.injEq] at hscan'
        have hden : (0:ℚ) < y2 - y1 := by
          have := lt_of_lt_of_le hy1 hy
          linarith
        have hnn : 0 ≤ (target - y1) * (x2 - x1) / (y2 - y1) :=
          div_nonneg (mul_nonneg (by linarith) (by linarith)) hden.le
        linarith [hscan']
    · rw [if_neg hy] at hscan
      refine ih (some (x2, y2)) tv (List.pairwise_cons.mp hpw).2 ?_
        (fun q hq => hlo q (List.mem_cons_of_mem _ hq)) hscan
      rintro p hp
      rw [Option.mem_def, Option.some.injEq] at hp
      subst hp
      exact ⟨(List.pairwise_cons.mp hpw).1, by linarith [not_le.mp hy],
        hlo (x2, y2) (List.mem_cons_self _ _)⟩

lemma txScan_upper (target hi : ℚ) (L : List (ℚ × ℚ)) :
    ∀ (prev : Option (ℚ × ℚ)) (tv : ℚ),
      List.Pairwise (fun a b : ℚ × ℚ => a.1 ≤ b.1) L →
      (∀ p ∈ prev, (∀ q ∈ L, p.1 ≤ q.1) ∧ p.2 < target ∧ p.1 ≤ hi) →
      (∀ q ∈ L, q.1 ≤ hi) →
      txScan target L prev = some tv → tv ≤ hi := by
  induction L with
  | nil => intro prev tv _ _ _ h; simp [txScan] at h
  | cons hd rest ih =>
    obtain ⟨x2, y2⟩ := hd
    intro prev tv hpw hprev hhi hscan
    simp only [txScan] at hscan
    by_cases hy : target ≤ y2
    · rw [if_pos hy] at hscan
      cases prev with
      | none =>
        have hscan' : some x2 = some tv := hscan
        rw [Option.some.injEq] at hscan'
        exact hscan' ▸ hhi (x2, y2) (List.mem_cons_self _ _)
      | some p =>
        obtain ⟨x1, y1⟩ := p
        obtain ⟨hpL, hy1, hhi1⟩ := hprev (x1, y1) rfl
        have hx12 : x1 ≤ x2 := hpL (x2, y2) (List.mem_cons_self _ _)
        have hne : y2 ≠ y1 := ne_of_gt (lt_of_lt_of_le hy1 hy)
        have hscan' : (if y2 ≠ y1 then
            some (x1 + (target - y1) * (x2 - x1) / (y2 - y1))
          else some x1) = some tv := hscan
        rw [if_pos hne, Option.some.injEq] at hscan'
        have hden : (0:ℚ) < y2 - y1 := by
          have := lt_of_lt_of_le hy1 hy
          linarith
        have hx2hi : x2 ≤ hi := hhi (x2, y2) (List.mem_cons_self _ _)
        have hfrac : (target - y1) * (x2 - x1) / (y2 - y1) ≤ x2 - x1 := by
          rw [div_le_iff₀ hden]
          have : (target - y1) * (x2 - x1) ≤ (y2 - y1) * (x2 - x1) :=
            mul_le_mul_of_nonneg_right (by linarith) (by linarith)
          linarith [this]
        linarith [hscan', hfrac]
    · rw [if_neg hy] at hscan
      refine ih (some (x2, y2)) tv (List.pairwise_cons.mp hpw).2 ?_
        (fun q hq => hhi q (List.mem_cons_of_mem _ hq)) hscan
      rintro p hp
      rw [Option.mem_def, Option.some.injEq] at hp
      subst hp
      exact ⟨(List.pairwise_cons.mp hpw).1, by linarith [not_le.mp hy],
        hhi (x2, y2) (List.mem_cons_self _ _)⟩

lemma txScan_eq_none (target : ℚ) (L : List (ℚ × ℚ)) :
    ∀ prev, (txScan target L prev = none ↔ ∀ q ∈ L, q.2 < target) := by
  induction L with
  | nil => intro prev; simp [txScan]
  | cons hd rest ih =>
    obtain ⟨x2, y2⟩ := hd
    intro prev
    simp only [txScan]
    by_cases hy : target ≤ y2
    · rw [if_pos hy]
      constructor
      · intro h
        exfalso
        cases prev with
        | none => exact Option.some_ne_none x2 h
        | some p =>
          obtain ⟨x1, y1⟩ := p
          have h' : (if y2 ≠ y1 then
              some (x1 + (target - y1) * (x2 - x1) / (y2 - y1))
            else some x1) = none := h
          by_cases hne : y2 ≠ y1
          · rw [if_pos hne] at h'; exact Option.some_ne_none _ h'
          · rw [if_neg hne] at h'; exact Option.some_ne_none _ h' 
      · intro h
        exact absurd (h (x2, y2) (List.mem_cons_self _ _)) (not_lt.mpr hy)
    · rw [if_neg hy]
      rw [ih (some (x2, y2))]
      constructor
      · intro h q hq
        rcases List.mem_cons.mp hq with rfl | hq'
        · exact not_le.mp hy
        · exact h q hq'
      · intro h q hq
        exact h q (List.mem_cons_of_mem _ hq)

lemma txScan_mono (t1 t2 : ℚ) (h12 : t1 ≤ t2) (L : List (ℚ × ℚ)) :
    ∀ (prev : Option (ℚ × ℚ)) (u v : ℚ),
      List.Pairwise (fun a b : ℚ × ℚ => a.1 ≤ b.1) L →
      (∀ p ∈ prev, (∀ q ∈ L, p.1 ≤ q.1) ∧ p.2 < t1) →
      txScan t1 L prev = some u → txScan t2 L prev = some v → u ≤ v := by
  induction L with
  | nil => intro prev u v _ _ h1 _; simp [txScan] at h1
  | cons hd rest ih =>
    obtain ⟨x2, y2⟩ := hd
    intro prev u v hpw hprev h1 h2
    simp only [txScan] at h1 h2
    by_cases hy2 : t2 ≤ y2
    · have hy1 : t1 ≤ y2 := h12.trans hy2
      rw [if_pos hy1] at h1
      rw [if_pos hy2] at h2
      cases prev with
      | none =>
        have h1' : some x2 = some u := h1
        have h2' : some x2 = some v := h2
        rw [Option.some.injEq] at h1' h2'
        rw [← h1', ← h2']
      | some p =>
        obtain ⟨x1, y1⟩ := p
        obtain ⟨hpL, hy1p⟩ := hprev (x1, y1) rfl
        have hx12 : x1 ≤ x2 := hpL (x2, y2) (List.mem_cons_self _ _)
        have hne : y2 ≠ y1 := ne_of_gt (lt_of_lt_of_le hy1p hy1)
        have h1' : (if y2 ≠ y1 then
            some (x1 + (t1 - y1) * (x2 - x1) / (y2 - y1))
          else some x1) = some u := h1
        have h2' : (if y2 ≠ y1 then
            some (x1 + (t2 - y1) * (x2 - x1) / (y2 - y1))
          else some x1) = some v := h2
        rw [if_pos hne, Option.some.injEq] at h1' h2'
        have hden : (0:ℚ) < y2 - y1 := by
          have := lt_of_lt_of_le hy1p hy1
          linarith
        have hmul : (t1 - y1) * (x2 - x1) ≤ (t2 - y1) * (x2 - x1) :=
          mul_le_mul_of_nonneg_right (by linarith) (by linarith)
        have hdiv : (t1 - y1) * (x2 - x1) / (y2 - y1)
            ≤ (t2 - y1) * (x2 - x1) / (y2 - y1) := by
          rw [div_le_iff₀ hden, div_mul_eq_mul_div, mul_div_assoc,
              div_self (ne_of_gt hden), mul_one]
          exact hmul
        linarith [h1', h2', hdiv]
    · by_cases hy1 : t1 ≤ y2
      · rw [if_pos hy1] at h1
        rw [if_neg hy2] at h2
        have hux2 : u ≤ x2 := by
          cases prev with
          | none =>
            have h1' : some x2 = some u := h1
            rw [Option.some.injEq] at h1'
            linarith [h1']
          | some p =>
            obtain ⟨x1, y1⟩ := p
            obtain ⟨hpL, hy1p⟩ := hprev (x1, y1) rfl
            have hx12 : x1 ≤ x2 := hpL (x2, y2) (List.mem_cons_self _ _)
            have hne : y2 ≠ y1 := ne_of_gt (lt_of_lt_of_le hy1p hy1)
            have h1' : (if y2 ≠ y1 then
                some (x1 + (t1 - y1) * (x2 - x1) / (y2 - y1))
              else some x1) = some u := h1
            rw [if_pos hne, Option.some.injEq] at h1'
            have hden : (0:ℚ) < y2 - y1 := by
              have := lt_of_lt_of_le hy1p hy1
              linarith
            have hfrac : (t1 - y1) * (x2 - x1) / (y2 - y1) ≤ x2 - x1 := by
              rw [div_le_iff₀ hden]
              have : (t1 - y1) * (x2 - x1) ≤ (y2 - y1) * (x2 - x1) :=
                mul_le_mul_of_nonneg_right (by linarith) (by linarith)
              linarith [this]
            linarith [h1', hfrac]
        have hx2v : x2 ≤ v := by
          refine txScan_lower t2 x2 rest (some (x2, y2)) v
            (List.pairwise_cons.mp hpw).2 ?_
            (fun q hq => (List.pairwise_cons.mp hpw).1 q hq) h2
          rintro p hp
          rw [Option.mem_def, Option.some.injEq] at hp
          subst hp
          exact ⟨(List.pairwise_cons.mp hpw).1, by linarith [not_le.mp hy2], le_refl _⟩
        linarith
      · rw [if_neg hy1] at h1
        rw [if_neg hy2] at h2
        refine ih (some (x2, y2)) u v (List.pairwise_cons.mp hpw).2 ?_ h1 h2
        rintro p hp
        rw [Option.mem_def, Option.some.injEq] at hp
        subst hp
        exact ⟨(List.pairwise_cons.mp hpw).1, not_le.mp hy1⟩


/-- C5: for a replicate series with ascending (non-decreasing) days and a
positive germination total, `_calculate_tx` is monotone in the target
percentage: a larger percentage never yields an earlier day. -/
theorem C5_tx_monotone (days rep : List ℚ) (total p1 p2 : ℚ)
    (hd : List.Pairwise (· ≤ ·) days) (ht : 0 < total) (hp : p1 ≤ p2) :
    calculate_tx days rep total p1 ≤ calculate_tx days rep total p2 := by
  have h12 : total * p1 ≤ total * p2 := mul_le_mul_of_nonneg_left hp ht.le
  rw [calculate_tx, calculate_tx, if_neg (ne_of_gt ht), if_neg (ne_of_gt ht)]
  have hpw : List.Pairwise (fun a b : ℚ × ℚ => a.1 ≤ b.1) (days.zip (cumsum rep)) :=
    pairwise_fst_zip hd
  cases e1 : txScan (total * p1) (days.zip (cumsum rep)) none with
  | none =>
    have hall := (txScan_eq_none (total * p1) (days.zip (cumsum rep)) none).mp e1
    have e2 : txScan (total * p2) (days.zip (cumsum rep)) none = none :=
      (txScan_eq_none (total * p2) (days.zip (cumsum rep)) none).mpr
        (fun q hq => lt_of_lt_of_le (hall q hq) h12)
    rw [e2]
  | some u =>
    cases e2 : txScan (total * p2) (days.zip (cumsum rep)) none with
    | none =>
      have hLne : days.zip (cumsum rep) ≠ [] := by
        intro hnil
        rw [hnil] at e1
        simp [txScan] at e1
      have hdne : days ≠ [] := by
        intro hnil
        apply hLne
        rw [hnil]
        rfl
      have hub : u ≤ days.getLast hdne := by
        refine txScan_upper (total * p1) (days.getLast hdne) (days.zip (cumsum rep))
          none u hpw (by simp) ?_ e1
        rintro ⟨qx, qy⟩ hq
        exact sorted_le_getLast hd hdne qx (List.of_mem_zip hq).1
      rw [List.getLast?_eq_getLast days hdne]
      simpa using hub
    | some v => exact txScan_mono _ _ h12 (days.zip (cumsum rep)) none u v hpw (by simp) e1 e2

/-- Witness for C5 at a concrete ascending series and percentages 0 and 1. -/
theorem C5_witness :
    calculate_tx [1, 2, 3] [1, 1, 1] 3 0 ≤ calculate_tx [1, 2, 3] [1, 1, 1] 3 1 :=
  C5_tx_monotone [1, 2, 3] [1, 1, 1] 3 0 1 (by decide) (by decide) (by decide)

/-- C10: for a replicate series with ascending days and a positive
germination total, the day returned by `_calculate_tx` always lies between
the first and the last observation day, for every target percentage. -/
theorem C10_tx_within_window (days rep : List ℚ) (total p : ℚ)
    (hd : List.Pairwise (· ≤ ·) days) (ht : 0 < total) (hne : days ≠ []) :
    days.head hne ≤ calculate_tx days rep total p ∧
    calculate_tx days rep total p ≤ days.getLast hne := by
  rw [calculate_tx, if_neg (ne_of_gt ht)]
  have hpw : List.Pairwise (fun a b : ℚ × ℚ => a.1 ≤ b.1) (days.zip (cumsum rep)) :=
    pairwise_fst_zip hd
  have hhl : days.head hne ≤ days.getLast hne :=
    sorted_le_getLast hd hne _ (List.head_mem hne)
  cases e : txScan (total * p) (days.zip (cumsum rep)) none with
  | none =>
    rw [List.getLast?_eq_getLast days hne]
    exact ⟨by simpa using hhl, by simp⟩
  | some u =>
    constructor
    · refine txScan_lower (total * p) (days.head hne) (days.zip (cumsum rep))
        none u hpw (by simp) ?_ e
      rintro ⟨qx, qy⟩ hq
      exact sorted_head_le hd hne qx (List.of_mem_zip hq).1
    · refine txScan_upper (total * p) (days.getLast hne) (days.zip (cumsum rep))
        none u hpw (by simp) ?_ e
      rintro ⟨qx, qy⟩ hq
      exact sorted_le_getLast hd hne qx (List.of_mem_zip hq).1

/-- Witness for C10 at a concrete ascending series. -/
theorem C10_witness :
    ([1, 2, 3] : List ℚ).head (List.cons_ne_nil 1 [2, 3])
        ≤ calculate_tx [1, 2, 3] [0, 1, 1] 2 (1/2) ∧
    calculate_tx [1, 2, 3] [0, 1, 1] 2 (1/2)
        ≤ ([1, 2, 3] : List ℚ).getLast (List.cons_ne_nil 1 [2, 3]) :=
  C10_tx_within_window [1, 2, 3] [0, 1, 1] 2 (1/2) (by decide) (by decide)
    (List.cons_ne_nil 1 [2, 3])


lemma sum_zipWith_sq_nonneg (days : List ℚ) (counts : List ℤ) (m : ℚ)
    (hc : ∀ c ∈ counts, 0 ≤ c) :
    0 ≤ (List.zipWith (fun (d : ℚ) (c : ℤ) => (c : ℚ) * (d - m) ^ 2) days counts).sum := by
  induction days generalizing counts with
  | nil => simp
  | cons d ds ih =>
    cases counts with
    | nil => simp
    | cons c cs =>
      rw [List.zipWith_cons_cons, List.sum_cons]
      have hc0 : (0:ℚ) ≤ (c:ℚ) := by exact_mod_cast hc c (List.mem_cons_self _ _)
      have hrest := ih cs (fun x hx => hc x (List.mem_cons_of_mem _ hx))
      have hterm : 0 ≤ (c:ℚ) * (d - m) ^ 2 := mul_nonneg hc0 (sq_nonneg _)
      linarith

lemma variance_nonneg (days : List ℚ) (counts : List ℤ) (hc : ∀ c ∈ counts, 0 ≤ c) :
    0 ≤ variance days counts := by
  rw [variance]
  split
  · next h =>
    refine div_nonneg (sum_zipWith_sq_nonneg days counts _ hc) ?_
    have : (1:ℚ) < (counts.sum : ℚ) := by exact_mod_cast h
    linarith
  · exact le_refl 0

lemma frequencies_pos (counts : List ℤ) : ∀ f ∈ frequencies counts, 0 < f := by
  intro f hf
  have := List.mem_filter.mp hf
  simpa using this.2

/-- C7 counterexample: the input days = [1], counts = [26], totalSeeds = 25
is valid under the spec's data model (positive seed count, nonnegative
counts), yet the arcsine-transform field of the output row is NaN
(modelled `none`): `np.arcsin` is applied to `sqrt(104/100) > 1`. -/
theorem C7_counterexample :
    (0 : ℤ) < 25 ∧ (∀ c ∈ [(26 : ℤ)], 0 ≤ c) ∧
    (computeRecordReal 25 [1] [26]).arcSin_Transformation = none := by
  refine ⟨by decide, by decide, ?_⟩
  have hg : germinability 25 [26] = 104 := by norm_num [germinability]
  rw [computeRecordReal, if_pos (by decide : (0:ℤ) < [(26:ℤ)].sum)]
  show (if 0 < germinability 25 [26] then
      (arcsinTrans (germinability 25 [26])).map (roundToR 2) else some 0) = none
  rw [hg, if_pos (by norm_num : (0:ℚ) < 104)]
  have harc : arcsinTrans 104 = none := by
    rw [arcsinTrans, npSqrt, if_pos (by norm_num : (0:ℚ) ≤ 104 / 100)]
    have hgt : (1:ℝ) < Real.sqrt (((104 : ℚ) / 100 : ℚ) : ℝ) := by
      have h1 : Real.sqrt 1 < Real.sqrt (((104 : ℚ) / 100 : ℚ) : ℝ) := by
        apply Real.sqrt_lt_sqrt (by norm_num)
        push_cast
        norm_num
      rwa [Real.sqrt_one] at h1
    have hnone : npArcsin (Real.sqrt (((104 : ℚ) / 100 : ℚ) : ℝ)) = none := by
      rw [npArcsin, if_neg (fun hcon => not_le.mpr hgt hcon.2)]
    show (npArcsin (Real.sqrt (((104 : ℚ) / 100 : ℚ) : ℝ))).map
      (fun a => a * (180 / Real.pi)) = none
    rw [hnone]
    rfl
  rw [harc]
  rfl

/-- C7 amended: all transcendental-valued output fields are finite (never
NaN) provided the germinated total does not exceed the configured seed count;
moreover every frequency passed to `np.log2` is strictly positive, so the
log-of-zero guard is effective.  (The remaining fields are rational-valued by
construction and cannot be non-finite.) -/
theorem C7_finite_when_bounded (seeds : ℤ) (days : List ℚ) (counts : List ℤ)
    (hs : 0 < seeds) (hc : ∀ c ∈ counts, 0 ≤ c) (hb : counts.sum ≤ seeds) :
    specAllFinite (computeRecordReal seeds days counts) ∧
    (∀ f ∈ frequencies counts, 0 < f) := by
  refine ⟨?_, frequencies_pos counts⟩
  by_cases hpos : 0 < counts.sum
  · rw [computeRecordReal, if_pos hpos]
    have hstd : (std_dev days counts).isSome = true := by
      rw [std_dev, npSqrt, if_pos (variance_nonneg days counts hc)]
      rfl
    refine ⟨?_, rfl, ?_, ?_⟩
    · show ((cvStat days counts).map (roundToR 2)).isSome = true
      rw [Option.isSome_map']
      rw [cvStat]
      split
      · rw [Option.isSome_map']
        exact hstd
      · rfl
    · show ((std_dev days counts).map (roundToR 2)).isSome = true
      rw [Option.isSome_map']
      exact hstd
    · show (if 0 < germinability seeds counts then
          (arcsinTrans (germinability seeds counts)).map (roundToR 2)
        else some 0).isSome = true
      by_cases hgpos : 0 < germinability seeds counts
      · rw [if_pos hgpos]
        have hg100 : germinability seeds counts ≤ 100 := by
          rw [germinability]
          have hsq : (0:ℚ) < (seeds:ℚ) := by exact_mod_cast hs
          have hle : (counts.sum : ℚ) ≤ (seeds : ℚ) := by exact_mod_cast hb
          calc (counts.sum : ℚ) / (seeds:ℚ) * 100 ≤ 1 * 100 := by
                refine mul_le_mul_of_nonneg_right ?_ (by norm_num)
                rw [div_le_one hsq]
                exact hle
            _ = 100 := by norm_num
        have harc : (arcsinTrans (germinability seeds counts)).isSome = true := by
          rw [arcsinTrans, npSqrt,
            if_pos (by linarith : (0:ℚ) ≤ germinability seeds counts / 100)]
          have hg100r : ((germinability seeds counts : ℚ) : ℝ) ≤ 100 := by
            exact_mod_cast hg100
          have hsq1 : Real.sqrt (((germinability seeds counts / 100 : ℚ)) : ℝ) ≤ 1 := by
            rw [show (1:ℝ) = Real.sqrt 1 from (Real.sqrt_one).symm]
            apply Real.sqrt_le_sqrt
            push_cast
            linarith
          have hsqm1 : (-1:ℝ) ≤ Real.sqrt (((germinability seeds counts / 100 : ℚ)) : ℝ) :=
            le_trans (by norm_num) (Real.sqrt_nonneg _)
          show ((npArcsin (Real.sqrt (((germinability seeds counts / 100 : ℚ)) : ℝ))).map
            (fun a => a * (180 / Real.pi))).isSome = true
          rw [npArcsin, if_pos (And.intro hsqm1 hsq1)]
          rfl
        rw [Option.isSome_map']
        exact harc
      · rw [if_neg hgpos]
        rfl
  · rw [computeRecordReal, if_neg hpos]
    exact ⟨rfl, rfl, rfl, rfl⟩

/-- Witness for C7 amended at a concrete in-range replicate. -/
theorem C7_witness :
    specAllFinite (computeRecordReal 25 [1] [20]) ∧
    (∀ f ∈ frequencies [20], 0 < f) :=
  C7_finite_when_bounded 25 [1] [20] (by decide) (by decide) (by decide)

end GermiTrack
